import Mathlib

/-!
Shallow embedding of the Default-Security-Standard repository
(`manage_coding_standard.py`, `state_manager.py`,
`standards_extractor/codacy_standards_extractor.py`).

Pure data and control flow are translated from the Python source; the HTTP
transport is replaced by explicit oracles (page sequences, per-attempt call
outcomes).  Machine-level effects (printing, tqdm progress, file writes) are
dropped; everything the claims observe (deviation strings, corrective calls,
retry traces, batch results) is made an explicit return value.
-/

namespace CodacyStd

/-- Opaque bag of pattern parameters (`parameters` field in the JSON shapes).
The code never inspects it, only copies it. -/
abbrev Params := List (String × String)

/-- A pattern entry as it appears in a baseline configuration file and in the
reconciler's live tree: `{id, enabled, parameters}`. -/
structure Pattern where
  id : String
  enabled : Bool
  parameters : Params
deriving DecidableEq, Repr

/-- The nested `patternDefinition` object of a raw API pattern entry (only
its `id` is ever read). -/
structure PatternDefinition where
  id : String
deriving DecidableEq, Repr

/-- A tool entry of a baseline configuration: `{uuid, isEnabled, patterns}`. -/
structure Tool where
  uuid : String
  isEnabled : Bool
  patterns : List Pattern
deriving DecidableEq, Repr

/-- A baseline configuration file (`languages`, `tools`). -/
structure Config where
  languages : List String
  tools : List Tool
deriving DecidableEq, Repr

/-! ### Python dict model

`state_manager.compare_and_update_standard` builds dicts
`{p['id']: p for p in ...}`.  A Python dict keeps first-insertion key order
and, on a repeated key, overwrites the value in place.  We model a dict as an
association list maintained by `dictInsert`. -/

/-- Insert into a Python-dict association list: replace in place if the key
is present, append otherwise. -/
def dictInsert (k : String) (v : α) : List (String × α) → List (String × α)
  | [] => [(k, v)]
  | (k', v') :: rest =>
      if k' = k then (k, v) :: rest else (k', v') :: dictInsert k v rest

/-- The Python dict built from a key/value sequence (dict comprehension). -/
def pyDict (kvs : List (String × α)) : List (String × α) :=
  kvs.foldl (fun d kv => dictInsert kv.1 kv.2 d) []

/-- Dict lookup (`d[k]` / `k in d`). -/
def dictFind (k : String) (d : List (String × α)) : Option α :=
  (d.find? (fun kv => kv.1 == k)).map (fun kv => kv.2)

namespace StateManager

/-- A tool of the live standard tree assembled by `state_manager.main`
(`uuid`, `isEnabled`, and the patterns fetched into `tool['patterns']`). -/
structure LiveTool where
  uuid : String
  isEnabled : Bool
  patterns : List Pattern
deriving DecidableEq, Repr

/-- One corrective `update_coding_standard_tool` call issued by the
reconciler: the baseline tool's uuid, full `isEnabled` and full pattern
list (`state_manager.py` lines 108-114). -/
structure UpdateCall where
  uuid : String
  enabled : Bool
  patterns : List Pattern
deriving DecidableEq, Repr

/-- The inner pattern loop of `compare_and_update_standard`
(`state_manager.py` lines 96-103): build `original_patterns` and
`current_patterns` dicts, then for each original pattern record
`pattern-missing` or `pattern-enabled-mismatch` deviations. -/
def pattern_deviations (toolUuid : String) (origPats curPats : List Pattern) :
    List String :=
  let orig := pyDict (origPats.map (fun p => (p.id, p)))
  let cur := pyDict (curPats.map (fun p => (p.id, p)))
  orig.foldl
    (fun acc kv =>
      match dictFind kv.1 cur with
      | none => acc ++ ["Pattern " ++ kv.1 ++ " is missing in tool " ++ toolUuid]
      | some cp =>
          if cp.enabled != kv.2.enabled then
            acc ++ ["Pattern " ++ kv.1 ++ " in tool " ++ toolUuid ++
              " has different enabled status"]
          else acc)
    []

/-- The deviations contributed by scanning one baseline tool against a found
live tool: enabled-status mismatch followed by the pattern loop
(`state_manager.py` lines 92-103). -/
def tool_scan_deviations (ot : Tool) (ct : LiveTool) : List String :=
  (if ct.isEnabled != ot.isEnabled
   then ["Tool " ++ ot.uuid ++ " enabled status mismatch"] else [])
  ++ pattern_deviations ot.uuid ot.patterns ct.patterns

/-- `state_manager.compare_and_update_standard` (lines 80-116), with the
corrective `update_coding_standard_tool` calls made explicit in the second
component.  The `if deviations:` check at line 106 tests the WHOLE
accumulated deviation list, not just the current tool's contribution. -/
def compare_and_update_standard (liveTools : List LiveTool) (config : Config) :
    List String × List UpdateCall :=
  config.tools.foldl
    (fun acc ot =>
      match liveTools.find? (fun t => t.uuid == ot.uuid) with
      | none => (acc.1 ++ ["Tool " ++ ot.uuid ++ " is missing"], acc.2)
      | some ct =>
          let devs := acc.1 ++ tool_scan_deviations ot ct
          if devs.isEmpty then (devs, acc.2)
          else (devs, acc.2 ++ [⟨ot.uuid, ot.isEnabled, ot.patterns⟩]))
    ([], [])

/-- Modelled from the spec: the corrected, tool-scoped reconciler of §4.3
("a faithful reimplementation should scope the has-deviations check strictly
to the current tool being compared").  Identical to
`compare_and_update_standard` except that the corrective-update trigger
tests only the current tool's own deviations. -/
def reconcile_scoped (liveTools : List LiveTool) (config : Config) :
    List String × List UpdateCall :=
  config.tools.foldl
    (fun acc ot =>
      match liveTools.find? (fun t => t.uuid == ot.uuid) with
      | none => (acc.1 ++ ["Tool " ++ ot.uuid ++ " is missing"], acc.2)
      | some ct =>
          let devs := tool_scan_deviations ot ct
          if devs.isEmpty then (acc.1 ++ devs, acc.2)
          else (acc.1 ++ devs, acc.2 ++ [⟨ot.uuid, ot.isEnabled, ot.patterns⟩]))
    ([], [])

end StateManager

/-! ### Paginated responses

Both `get_tool_patterns` loops and the repository-listing loop decide whether
to continue from a *falsy* check on the next-link / cursor: Python's
`while url:` and `if not pagination_info.get('cursor')` stop on `None` and on
the empty string alike. -/

/-- One page of a paginated listing: its `data` entries and the
`pagination.next` link / `pagination.cursor` value of the response. -/
structure Page (α : Type) where
  data : List α
  next : Option String
deriving DecidableEq, Repr

/-- Python truthiness of an optional string (`None` and `""` are falsy). -/
def truthy : Option String → Bool
  | none => false
  | some s => s != ""

namespace Remote

/-- Modelled from the spec: the remote service's tool state is out of scope of
`src/` ("the remote service's actual business logic" is an external
collaborator).  Per §4.1/§4.3, `updateTool` is a PATCH that "overwrites live
state with baseline state wholesale": the tool's enabled flag and pattern
list become exactly the pushed payload.  Tool identities are unique within a
standard (§3), so the state is an association list keyed by uuid; an update
replaces the entry in place or appends a new one. -/
def updateTool (uuid : String) (enabled : Bool) (pats : List Pattern) :
    List StateManager.LiveTool → List StateManager.LiveTool
  | [] => [⟨uuid, enabled, pats⟩]
  | t :: ts =>
      if t.uuid = uuid then ⟨uuid, enabled, pats⟩ :: ts
      else t :: updateTool uuid enabled pats ts

end Remote

namespace Manage

/-- A raw pattern object as returned by the patterns endpoint
(`{patternDefinition: {id}, enabled, parameters, ...}`); `patternDefinition`
may be absent, which the disable pass guards against. -/
structure ApiPattern where
  patternDefinition : Option PatternDefinition
  enabled : Bool
  parameters : Params
deriving DecidableEq, Repr

/-- `manage_coding_standard.list_tool_patterns` (lines 38-42): a single GET
returning `response.json()['data']` — no pagination loop.  `pages` is the
sequence of responses the server would serve; only the first is requested. -/
def list_tool_patterns (pages : List (Page α)) : List α :=
  (pages.headD ⟨[], none⟩).data

/-- The `disabled_patterns` comprehension of the disable-all pass
(`manage_coding_standard.py` lines 90-95): keep fetched patterns that carry a
`patternDefinition.id`, mapping each to `{id, enabled: False}` (no
`parameters` key is sent; modelled as `[]`). -/
def disabled_patterns_of (fetched : List ApiPattern) : List Pattern :=
  fetched.filterMap (fun p =>
    p.patternDefinition.map (fun d => (⟨d.id, false, []⟩ : Pattern)))

/-- The `patterns` comprehension of the enable pass (lines 105-111): from the
baseline tool's pattern list keep only entries with `enabled` true, carrying
id, enabled and parameters.  (The source reads the id from the baseline
entry's `patternDefinition['id']`; the spec's Configuration Model (§3)
normalises that to the pattern's `id`, as `Pattern` here does.) -/
def enabled_config_patterns (t : Tool) : List Pattern :=
  (t.patterns.filter (fun p => p.enabled)).map
    (fun p => (⟨p.id, p.enabled, p.parameters⟩ : Pattern))

/-- Effect of the disable-all pass (lines 85-97) on the remote state: for
each tool of the freshly created standard, fetch its patterns and push
`updateTool(enabled=false, all patterns disabled)`. -/
def build_disable_pass (s : List StateManager.LiveTool) :
    List StateManager.LiveTool :=
  (s.map (fun t => t.uuid)).foldl
    (fun st u =>
      let fetched :=
        ((st.find? (fun t => t.uuid == u)).map (fun t => t.patterns)).getD []
      Remote.updateTool u false
        (fetched.map (fun p => (⟨p.id, false, []⟩ : Pattern))) st)
    s

/-- Effect of the enable pass (lines 100-112) on the remote state: for each
baseline tool, push `updateTool(isEnabled, enabled patterns only)`. -/
def build_enable_pass (s : List StateManager.LiveTool) (config : Config) :
    List StateManager.LiveTool :=
  config.tools.foldl
    (fun st t => Remote.updateTool t.uuid t.isEnabled (enabled_config_patterns t) st)
    s

/-- The remote tool state produced by `process_coding_standard` (lines
71-122) from an initial (service-default) tool state and a baseline config:
disable everything, then enable what the baseline specifies. -/
def process_coding_standard_live (init : List StateManager.LiveTool)
    (config : Config) : List StateManager.LiveTool :=
  build_enable_pass (build_disable_pass init) config

/-! ### Bulk applier: link retry loop (lines 134-155) -/

/-- Outcome of one `linkRepositories` PATCH attempt: 2xx, or an
`HTTPError` with its status and response body. -/
inductive HttpOutcome where
  | ok
  | httpError (status : Nat) (body : String)
deriving DecidableEq, Repr

/-- Abstraction of Python's `str(e)` for a `requests` `HTTPError`. -/
def err_string (status : Nat) : String :=
  "HTTPError " ++ toString status

/-- The result dict of `apply_coding_standard_to_repositories`: `success`
plus the keys present on the failure paths. -/
structure LinkResult where
  success : Bool
  error : Option String
  status_code : Option Nat
  error_content : Option String
deriving DecidableEq, Repr

/-- Instrumentation of the retry loop: how many HTTP attempts were made and
which backoff sleeps (in seconds) were performed. -/
structure LinkTrace where
  attempts : Nat
  sleeps : List Nat
deriving DecidableEq, Repr

/-- The `for attempt in range(max_retries)` loop of
`apply_coding_standard_to_repositories` (lines 141-153), recursing on the
number of iterations left (`rem + 1` iterations remain, so the loop variable
is `attempt` and `attempt == max_retries - 1` exactly when `rem = 0`):
success returns at once; a 400 failure returns at once with the response
body captured; any other failure returns on the last attempt, else sleeps
`2 ** attempt` and retries.  The `rem = 0` base case is the fall-through
return of line 155, reached only when `max_retries = 0`. -/
def link_attempt_go (outcomes : Nat → HttpOutcome) :
    Nat → Nat → List Nat → LinkResult × LinkTrace
  | 0, attempt, sleeps =>
      (⟨false, some "Max retries reached", none, none⟩, ⟨attempt, sleeps⟩)
  | rem + 1, attempt, sleeps =>
      match outcomes attempt with
      | .ok => (⟨true, none, none, none⟩, ⟨attempt + 1, sleeps⟩)
      | .httpError status body =>
          if status = 400 then
            (⟨false, some (err_string status), some 400, some body⟩,
             ⟨attempt + 1, sleeps⟩)
          else if rem = 0 then
            (⟨false, some (err_string status), some status, none⟩,
             ⟨attempt + 1, sleeps⟩)
          else
            link_attempt_go outcomes rem (attempt + 1) (sleeps ++ [2 ^ attempt])

/-- `apply_coding_standard_to_repositories(..., max_retries)` with the HTTP
attempt outcomes supplied by an oracle. -/
def apply_coding_standard_to_repositories (outcomes : Nat → HttpOutcome)
    (max_retries : Nat) : LinkResult × LinkTrace :=
  link_attempt_go outcomes max_retries 0 []

/-! ### Bulk applier: pagination drain and batching (lines 157-195) -/

/-- One page of `listRepositories`: the repository names of `data` and the
`pagination.cursor` of the response. -/
structure RepoPage where
  data : List String
  cursor : Option String
deriving DecidableEq, Repr

/-- The `while True` drain loop (lines 161-169): extend names with the
page's entries, then break unless the response carries a truthy cursor.
Returns the collected names and the number of list calls made.  (`pages` is
the sequence of responses the server serves; the `[]` case is unreachable
when, as hypothesised in the theorems, the sequence ends with a cursorless
page.) -/
def drain_repository_pages : List RepoPage → List String × Nat
  | [] => ([], 0)
  | page :: rest =>
      if truthy page.cursor then
        let r := drain_repository_pages rest
        (page.data ++ r.1, r.2 + 1)
      else (page.data, 1)

/-- A failed-batch record (lines 185-190): repository name with the batch
call's error string, status code and captured error content. -/
structure FailedEntry where
  repo : String
  error : String
  status_code : Option Nat
  error_content : Option String
deriving DecidableEq, Repr

/-- The aggregate result of `apply_coding_standard_to_all_repositories`,
with the sequence of submitted batches kept as instrumentation. -/
structure AllResults where
  successful : List String
  failed : List FailedEntry
  calls : List (List String)
deriving DecidableEq, Repr

/-- Failure record for one repository of a failed batch. -/
def mkFailedEntry (r : LinkResult) (repo : String) : FailedEntry :=
  ⟨repo, r.error.getD "", r.status_code, r.error_content⟩

/-- The body of the batch loop (lines 176-191): slice batch `b`, make its
link call (with `max_retries = 3`, outcomes given by `env b`), and extend
either the successful names or the failed records; the submitted batch is
recorded in `calls`. -/
def apply_batch_step (env : Nat → Nat → HttpOutcome) (batch_size : Nat)
    (names : List String) (acc : AllResults) (b : Nat) : AllResults :=
  let batch := (names.drop (b * batch_size)).take batch_size
  let r := (apply_coding_standard_to_repositories (env b) 3).1
  if r.success then
    { acc with successful := acc.successful ++ batch,
               calls := acc.calls ++ [batch] }
  else
    { acc with failed := acc.failed ++ batch.map (mkFailedEntry r),
               calls := acc.calls ++ [batch] }

/-- The batch loop of `apply_coding_standard_to_all_repositories` (lines
175-191) run for `count` batches: Python's
`for i in range(0, total_repos, batch_size)` iterates over the start
indices `b * batch_size` for `b < ceil(total / batch_size)`, and slices
`all_repositories[i:i+batch_size]`. -/
def apply_batches (env : Nat → Nat → HttpOutcome) (batch_size : Nat)
    (names : List String) (count : Nat) : AllResults :=
  (List.range count).foldl (apply_batch_step env batch_size names) ⟨[], [], []⟩

/-- Number of iterations of `range(0, total, step)` for `step ≥ 1`:
`ceil(total / step)`. -/
def rangeStepCount (total step : Nat) : Nat :=
  (total + step - 1) / step

/-- `apply_coding_standard_to_all_repositories` (lines 157-195): drain all
repository pages, then process contiguous batches, aggregating successful
names and failed records.  Never raises: every batch outcome is folded into
the result structure. -/
def apply_coding_standard_to_all_repositories (pages : List RepoPage)
    (env : Nat → Nat → HttpOutcome) (batch_size : Nat) : AllResults :=
  let names := (drain_repository_pages pages).1
  apply_batches env batch_size names (rangeStepCount names.length batch_size)

/-- The contiguous `size`-sized chunks of a list (the batching of §4.4):
chunk `b` is the slice `l[b*size : b*size+size]`. -/
def chunkList (size : Nat) (l : List α) : List (List α) :=
  (List.range (rangeStepCount l.length size)).map
    (fun b => (l.drop (b * size)).take size)

/-! ### Builder error containment (lines 100-120) -/

/-- Outcome of one remote write as seen by the builder's `try` blocks:
success, an `requests.exceptions.HTTPError` (non-2xx), or a transport-level
failure (`ConnectionError`/`Timeout`), which is NOT an `HTTPError`. -/
inductive CallOutcome where
  | ok
  | httpError (status : Nat)
  | transportError
deriving DecidableEq, Repr

/-- The enable-pass loop (lines 100-114) under per-call outcomes: each
iteration attempts `update_coding_standard_tool`; `except HTTPError` catches
non-2xx and continues; a transport error is not caught, so the loop stops
and the exception escapes.  Returns the uuids whose update was attempted and
whether an exception escaped the loop. -/
def enable_pass_calls (out : Nat → CallOutcome) :
    Nat → List Tool → List String × Bool
  | _, [] => ([], false)
  | i, t :: ts =>
      match out i with
      | .transportError => ([t.uuid], true)
      | _ =>
          let r := enable_pass_calls out (i + 1) ts
          (t.uuid :: r.1, r.2)

/-- Control-flow trace of `process_coding_standard` after standard creation:
which per-tool updates were attempted, whether promotion was attempted, and
whether an exception escaped the function (lines 100-120: only
`HTTPError` is caught around the per-tool update and around promotion). -/
structure BuilderTrace where
  attempted : List String
  promotionAttempted : Bool
  raised : Bool
deriving DecidableEq, Repr

/-- `process_coding_standard`'s enable pass and promotion step under an
outcome oracle (`updOut i` = outcome of tool `i`'s update, `promoOut` =
outcome of the promotion POST). -/
def process_coding_standard_trace (updOut : Nat → CallOutcome)
    (promoOut : CallOutcome) (tools : List Tool) : BuilderTrace :=
  let r := enable_pass_calls updOut 0 tools
  if r.2 then ⟨r.1, false, true⟩
  else
    match promoOut with
    | .transportError => ⟨r.1, true, true⟩
    | _ => ⟨r.1, true, false⟩

end Manage

namespace StateManager

/-- `state_manager.get_tool_patterns` (lines 57-68): follow the
`pagination.next` link while truthy, concatenating each page's `data`. -/
def get_tool_patterns : List (Page α) → List α
  | [] => []
  | page :: rest =>
      if truthy page.next then page.data ++ get_tool_patterns rest
      else page.data

end StateManager

namespace Extractor

/-- `codacy_standards_extractor.get_tool_patterns` (lines 56-67): the same
`pagination.next` drain loop as the reconciler's. -/
def get_tool_patterns : List (Page α) → List α
  | [] => []
  | page :: rest =>
      if truthy page.next then page.data ++ get_tool_patterns rest
      else page.data

/-- A tool as assembled by the extractor's `main` before saving:
`codingStandardId`, `uuid`, `isEnabled`, and the `patterns` field filled by
the fetch loop. -/
structure ExtTool where
  codingStandardId : String
  uuid : String
  isEnabled : Bool
  patterns : List Manage.ApiPattern
deriving DecidableEq, Repr

/-- A tool entry of the saved baseline file (`save_coding_standard`,
lines 77-89). -/
structure SavedTool where
  codingStandardId : String
  uuid : String
  isEnabled : Bool
  patterns : List Manage.ApiPattern
deriving DecidableEq, Repr

/-- The `tools` list written by `save_coding_standard` (lines 77-89): keep
tools with `isEnabled` true, and within each keep the fetched pattern
objects with `enabled` true. -/
def save_coding_standard_tools (tools : List ExtTool) : List SavedTool :=
  (tools.filter (fun t => t.isEnabled)).map
    (fun t =>
      ⟨t.codingStandardId, t.uuid, t.isEnabled,
       t.patterns.filter (fun p => p.enabled)⟩)

/-- The per-tool fetch loop of the extractor's `main` (lines 121-126):
patterns are fetched only for enabled tools, disabled tools get `[]`.
Returns the tools with `patterns` filled and the list of uuids whose
patterns were fetched. -/
def fetch_patterns_pass (fetch : String → List Manage.ApiPattern)
    (tools : List ExtTool) : List ExtTool × List String :=
  (tools.map (fun t =>
      if t.isEnabled then { t with patterns := fetch t.uuid }
      else { t with patterns := [] }),
   (tools.filter (fun t => t.isEnabled)).map (fun t => t.uuid))

end Extractor

end CodacyStd

open CodacyStd

/-! ## Claim theorems -/

/-- The C1 scenario's baseline: T1 (enabled, P1:true, P2:false) and
T2 (enabled, P3:true). -/
def c1Config : Config :=
  ⟨["python"],
   [⟨"t1", true, [⟨"p1", true, []⟩, ⟨"p2", false, []⟩]⟩,
    ⟨"t2", true, [⟨"p3", true, []⟩]⟩]⟩

/-- The C1 scenario's live tree: T1 missing P1, T2 matching exactly. -/
def c1Live : List StateManager.LiveTool :=
  [⟨"t1", true, [⟨"p2", false, []⟩]⟩,
   ⟨"t2", true, [⟨"p3", true, []⟩]⟩]

/-- `n` distinct repository names with prefix `s`, in order. -/
def mkNames (s : String) (n : Nat) : List String :=
  (List.range n).map (fun i => s ++ toString i)

/-- The C6 scenario's repository pages: sizes 100, 100, 37 with cursors
c1, c2, none. -/
def c6Pages : List Manage.RepoPage :=
  [⟨mkNames "a" 100, some "c1"⟩, ⟨mkNames "b" 100, some "c2"⟩,
   ⟨mkNames "c" 37, none⟩]

/-- First page of the C7 sample pattern listing (carries a next-link). -/
def c7Front : List (Page Manage.ApiPattern) :=
  [⟨[⟨some ⟨"p1"⟩, true, []⟩], some "next-url"⟩]

/-- Last page of the C7 sample pattern listing (no next-link). -/
def c7Last : Page Manage.ApiPattern :=
  ⟨[⟨some ⟨"p2"⟩, true, []⟩], none⟩

/-- C7 sample pattern pages, two pages deep. -/
def c7Pages : List (Page Manage.ApiPattern) :=
  c7Front ++ [c7Last]

/-- A service-default initial tool state for the C2 witness. -/
def c2Init : List StateManager.LiveTool :=
  [⟨"x", true, [⟨"q", true, []⟩]⟩]

/-- A C2 witness baseline: unique uuids, every listed pattern enabled. -/
def c2Config : Config :=
  ⟨["python"],
   [⟨"t", true, [⟨"p", true, []⟩]⟩,
    ⟨"u", false, [⟨"r", true, [("a", "b")]⟩]⟩]⟩

/-- The C2 counterexample baseline: one tool listing one pattern with
`enabled: false`. -/
def c2CexConfig : Config :=
  ⟨["python"], [⟨"t", true, [⟨"p", false, []⟩]⟩]⟩

/-- C1: on the claim's own scenario (unique uuids; baseline T1 enabled with
P1:true, P2:false, T2 enabled with P3:true; live T1 missing P1, T2 matching
exactly) the code's reconciler returns exactly the deviation
`pattern-missing(P1,T1)` as the claim states, but issues corrective
`updateTool` calls for BOTH t1 and t2: the accumulated deviation list from
T1's scan also triggers an update of deviation-free T2, contradicting
"a corrective updateTool call is issued ... if and only if at least one
deviation was recorded while scanning that same tool" and
"never update(T2)". -/
theorem C1_update_iff_own_deviation_fails_on_code :
    (StateManager.compare_and_update_standard c1Live c1Config).1 =
      ["Pattern p1 is missing in tool t1"] ∧
    ((StateManager.compare_and_update_standard c1Live c1Config).2.map
        (fun c => c.uuid)) = ["t1", "t2"] := by
  constructor <;> rfl

/-- C3: a `linkRepositories` attempt that fails with HTTP 400 is not
retried: the call returns after exactly one attempt, with no backoff sleep,
marked unsuccessful with status code 400 and the response body preserved in
`error_content`, whatever the outcomes of later (never-made) attempts. -/
theorem C3_status_400_single_attempt (outcomes : Nat → Manage.HttpOutcome)
    (body : String) (h : outcomes 0 = .httpError 400 body) :
    Manage.apply_coding_standard_to_repositories outcomes 3 =
      (⟨false, some (Manage.err_string 400), some 400, some body⟩,
       ⟨1, []⟩) := by
  simp [Manage.apply_coding_standard_to_repositories, Manage.link_attempt_go, h]

/-- Witness for C3 at a concrete outcome oracle. -/
theorem C3_status_400_single_attempt_witness :
    Manage.apply_coding_standard_to_repositories
        (fun _ => .httpError 400 "bad-request") 3 =
      (⟨false, some (Manage.err_string 400), some 400, some "bad-request"⟩,
       ⟨1, []⟩) :=
  C3_status_400_single_attempt (fun _ => .httpError 400 "bad-request")
    "bad-request" rfl

/-- C4: with `max_retries = 3`, a non-400 failure is retried with
exponential backoff `2^attempt`: (a) failing twice with non-400 statuses and
succeeding on the third attempt yields success after 3 attempts and backoff
sleeps `[1, 2]` (cumulative 3 seconds); (b) three non-400 failures yield a
failure record carrying the last status code, after 3 attempts and the same
sleeps. -/
theorem C4_non_400_retry_with_backoff :
    (∀ (outcomes : Nat → Manage.HttpOutcome) (s0 s1 : Nat) (b0 b1 : String),
       outcomes 0 = .httpError s0 b0 → outcomes 1 = .httpError s1 b1 →
       s0 ≠ 400 → s1 ≠ 400 → outcomes 2 = .ok →
       Manage.apply_coding_standard_to_repositories outcomes 3 =
         (⟨true, none, none, none⟩, ⟨3, [1, 2]⟩)) ∧
    (∀ (outcomes : Nat → Manage.HttpOutcome) (s0 s1 s2 : Nat)
       (b0 b1 b2 : String),
       outcomes 0 = .httpError s0 b0 → outcomes 1 = .httpError s1 b1 →
       outcomes 2 = .httpError s2 b2 →
       s0 ≠ 400 → s1 ≠ 400 → s2 ≠ 400 →
       Manage.apply_coding_standard_to_repositories outcomes 3 =
         (⟨false, some (Manage.err_string s2), some s2, none⟩,
          ⟨3, [1, 2]⟩)) := by
  constructor
  · intro outcomes s0 s1 b0 b1 h0 h1 hs0 hs1 h2
    simp [Manage.apply_coding_standard_to_repositories, Manage.link_attempt_go,
      h0, h1, h2, hs0, hs1]
  · intro outcomes s0 s1 s2 b0 b1 b2 h0 h1 h2 hs0 hs1 hs2
    simp [Manage.apply_coding_standard_to_repositories, Manage.link_attempt_go,
      h0, h1, h2, hs0, hs1, hs2]

/-- Witness for C4 at concrete outcome oracles (500, 500, then success;
and 500, 500, 502). -/
theorem C4_non_400_retry_with_backoff_witness :
    (Manage.apply_coding_standard_to_repositories
        (fun n => if n < 2 then .httpError 500 "oops" else .ok) 3 =
      (⟨true, none, none, none⟩, ⟨3, [1, 2]⟩)) ∧
    (Manage.apply_coding_standard_to_repositories
        (fun n => if n < 2 then .httpError 500 "oops" else .httpError 502 "bad") 3 =
      (⟨false, some (Manage.err_string 502), some 502, none⟩,
       ⟨3, [1, 2]⟩)) :=
  ⟨C4_non_400_retry_with_backoff.1
      (fun n => if n < 2 then .httpError 500 "oops" else .ok)
      500 500 "oops" "oops" rfl rfl (by decide) (by decide) rfl,
   C4_non_400_retry_with_backoff.2
      (fun n => if n < 2 then .httpError 500 "oops" else .httpError 502 "bad")
      500 500 502 "oops" "oops" "bad" rfl rfl rfl
      (by decide) (by decide) (by decide)⟩

/-- C8: the pattern list the disable-all pass sends with
`updateTool(enabled=false)` has `enabled = false` on every included entry,
whatever the enabled states of the fetched patterns. -/
theorem C8_disable_pass_sends_only_disabled
    (fetched : List Manage.ApiPattern) :
    ∀ p ∈ Manage.disabled_patterns_of fetched, p.enabled = false := by
  intro p hp
  simp only [Manage.disabled_patterns_of, List.mem_filterMap] at hp
  obtain ⟨q, _, hq⟩ := hp
  rcases hd : q.patternDefinition with _ | d
  · rw [hd] at hq; simp at hq
  · rw [hd] at hq
    simp only [Option.map_some'] at hq
    cases hq
    rfl

/-- Witness for C8: a fetched pattern that is enabled still comes out
disabled. -/
theorem C8_disable_pass_sends_only_disabled_witness :
    (⟨"p7", false, []⟩ : Pattern).enabled = false :=
  C8_disable_pass_sends_only_disabled
    [⟨some ⟨"p7"⟩, true, [("x", "1")]⟩] ⟨"p7", false, []⟩ (by decide)

/-- C10: the baseline written by the extractor contains exactly the tools
with `isEnabled = true`, each carrying exactly its fetched patterns with
`enabled = true`; and the pattern-fetch loop requests patterns exactly for
the enabled tools (disabled tools are never fetched). -/
theorem C10_extractor_saves_exactly_enabled
    (fetch : String → List Manage.ApiPattern)
    (tools : List Extractor.ExtTool) :
    Extractor.save_coding_standard_tools
        (Extractor.fetch_patterns_pass fetch tools).1 =
      (tools.filter (fun t => t.isEnabled)).map
        (fun t =>
          ⟨t.codingStandardId, t.uuid, t.isEnabled,
           (fetch t.uuid).filter (fun p => p.enabled)⟩) ∧
    (Extractor.fetch_patterns_pass fetch tools).2 =
      (tools.filter (fun t => t.isEnabled)).map (fun t => t.uuid) := by
  refine ⟨?_, rfl⟩
  induction tools with
  | nil => rfl
  | cons t ts ih =>
      by_cases h : t.isEnabled
      · simp only [Extractor.fetch_patterns_pass,
          Extractor.save_coding_standard_tools, List.map_cons, List.filter_cons,
          h, if_true] at ih ⊢
        simp only [ih]
      · simp only [Extractor.fetch_patterns_pass,
          Extractor.save_coding_standard_tools, List.map_cons, List.filter_cons,
          h, if_false] at ih ⊢
        simp only [Bool.false_eq_true, if_false, h]
        simp only [ih]

/-! ### Helper lemmas: pagination drain and batching -/

/-- Draining a response sequence whose every page but the last carries a
truthy cursor collects the concatenation of all pages' names in order, with
one list call per page. -/
lemma drain_append_last (front : List Manage.RepoPage)
    (last : Manage.RepoPage)
    (hf : ∀ p ∈ front, truthy p.cursor = true)
    (hl : truthy last.cursor = false) :
    Manage.drain_repository_pages (front ++ [last]) =
      (((front ++ [last]).map (fun p => p.data)).flatten,
       front.length + 1) := by
  induction front with
  | nil => simp [Manage.drain_repository_pages, hl]
  | cons p front ih =>
      have hp : truthy p.cursor = true := hf p (by simp)
      have hrest : ∀ q ∈ front, truthy q.cursor = true :=
        fun q hq => hf q (by simp [hq])
      simp only [List.cons_append, Manage.drain_repository_pages, hp,
        if_true, List.append_eq]
      rw [ih hrest]
      simp

/-- Each batch-loop step records exactly its slice as the submitted batch. -/
lemma apply_batch_step_calls (env : Nat → Nat → Manage.HttpOutcome)
    (bs : Nat) (names : List String) (acc : Manage.AllResults) (b : Nat) :
    (Manage.apply_batch_step env bs names acc b).calls =
      acc.calls ++ [(names.drop (b * bs)).take bs] := by
  simp only [Manage.apply_batch_step]
  split <;> rfl

/-- After `count` batch-loop steps the submitted batches are exactly the
first `count` contiguous slices. -/
lemma apply_batches_calls (env : Nat → Nat → Manage.HttpOutcome)
    (bs : Nat) (names : List String) (count : Nat) :
    (Manage.apply_batches env bs names count).calls =
      (List.range count).map (fun b => (names.drop (b * bs)).take bs) := by
  induction count with
  | zero => rfl
  | succ n ih =>
      simp only [Manage.apply_batches, List.range_succ, List.foldl_append,
        List.foldl_cons, List.foldl_nil, List.map_append, List.map_cons,
        List.map_nil] at ih ⊢
      rw [apply_batch_step_calls, ih]

set_option maxRecDepth 100000 in
/-- C6: (general part) for every response sequence whose pages all carry a
truthy continuation cursor except the cursorless last one, the applier
collects the concatenation of the pages' names in order via exactly one list
call per page, and the batches it submits to `linkRepositories` are exactly
the contiguous `batch_size`-sized chunks of that concatenation; (concrete
part) pages of sizes [100,100,37] with cursors [c1,c2,none] yield exactly
237 names via exactly 3 list calls, and with `batch_size = 75` the submitted
batches have sizes [75,75,75,12]. -/
theorem C6_drain_all_pages_then_chunk :
    (∀ (front : List Manage.RepoPage) (last : Manage.RepoPage)
       (env : Nat → Nat → Manage.HttpOutcome) (batch_size : Nat),
       (∀ p ∈ front, truthy p.cursor = true) → truthy last.cursor = false →
       Manage.drain_repository_pages (front ++ [last]) =
         (((front ++ [last]).map (fun p => p.data)).flatten,
          front.length + 1) ∧
       (Manage.apply_coding_standard_to_all_repositories (front ++ [last])
           env batch_size).calls =
         Manage.chunkList batch_size
           (((front ++ [last]).map (fun p => p.data)).flatten)) ∧
    (Manage.drain_repository_pages c6Pages).1.length = 237 ∧
    (Manage.drain_repository_pages c6Pages).2 = 3 ∧
    ((Manage.apply_coding_standard_to_all_repositories c6Pages
        (fun _ _ => .ok) 75).calls).map List.length = [75, 75, 75, 12] := by
  refine ⟨fun front last env batch_size hf hl => ?_, by rfl, by rfl, by rfl⟩
  have hd := drain_append_last front last hf hl
  refine ⟨hd, ?_⟩
  show (Manage.apply_batches env batch_size
      (Manage.drain_repository_pages (front ++ [last])).1
      (Manage.rangeStepCount
        (Manage.drain_repository_pages (front ++ [last])).1.length
        batch_size)).calls = _
  rw [hd, apply_batches_calls]
  rfl

/-- Witness for C6 at a concrete two-page response sequence. -/
theorem C6_drain_all_pages_then_chunk_witness :
    (Manage.drain_repository_pages
        ([(⟨["r1", "r2"], some "k"⟩ : Manage.RepoPage)] ++
         [(⟨["r3"], none⟩ : Manage.RepoPage)]) =
      ((([(⟨["r1", "r2"], some "k"⟩ : Manage.RepoPage)] ++
          [(⟨["r3"], none⟩ : Manage.RepoPage)]).map
            (fun p => p.data)).flatten, 2) ∧
     (Manage.apply_coding_standard_to_all_repositories
         ([(⟨["r1", "r2"], some "k"⟩ : Manage.RepoPage)] ++
          [(⟨["r3"], none⟩ : Manage.RepoPage)])
         (fun _ _ => .ok) 2).calls =
       Manage.chunkList 2
         ((([(⟨["r1", "r2"], some "k"⟩ : Manage.RepoPage)] ++
            [(⟨["r3"], none⟩ : Manage.RepoPage)]).map
              (fun p => p.data)).flatten)) :=
  C6_drain_all_pages_then_chunk.1 [(⟨["r1", "r2"], some "k"⟩ : Manage.RepoPage)]
    (⟨["r3"], none⟩ : Manage.RepoPage) (fun _ _ => .ok) 2 (by decide) (by decide)

/-! ### Helper lemmas: batch partition -/

/-- Rearranging one appended block across a concatenation. -/
lemma perm_shift_block (a b c : List α) :
    ((a ++ c) ++ b).Perm ((a ++ b) ++ c) := by
  rw [List.append_assoc, List.append_assoc]
  exact List.Perm.append_left a List.perm_append_comm

/-- A failure record keeps the repository name it was built from. -/
lemma mkFailedEntry_repo (r : Manage.LinkResult) (x : String) :
    (Manage.mkFailedEntry r x).repo = x := rfl

/-- One batch-loop step moves exactly its slice into one of the two result
lists. -/
lemma apply_batch_step_partition (env : Nat → Nat → Manage.HttpOutcome)
    (bs : Nat) (names : List String) (acc : Manage.AllResults) (b : Nat) :
    ((Manage.apply_batch_step env bs names acc b).successful ++
      (Manage.apply_batch_step env bs names acc b).failed.map
        (fun e => e.repo)).Perm
      ((acc.successful ++ acc.failed.map (fun e => e.repo)) ++
        (names.drop (b * bs)).take bs) := by
  simp only [Manage.apply_batch_step]
  split
  · exact perm_shift_block acc.successful (acc.failed.map (fun e => e.repo))
      ((names.drop (b * bs)).take bs)
  · simp only [List.map_append, List.map_map]
    have hmap : List.map
        ((fun (e : Manage.FailedEntry) => e.repo) ∘ Manage.mkFailedEntry
          (Manage.apply_coding_standard_to_repositories (env b) 3).1)
        ((names.drop (b * bs)).take bs) =
        (names.drop (b * bs)).take bs := by
      have hf : ((fun (e : Manage.FailedEntry) => e.repo) ∘ Manage.mkFailedEntry
          (Manage.apply_coding_standard_to_repositories (env b) 3).1) =
          fun x => x := funext (fun _ => rfl)
      rw [hf]
      simp
    rw [hmap, ← List.append_assoc]

/-- After `count` batch-loop steps, the successful names and the failed
records' names together are a permutation of the first `count` slices'
worth of `names`. -/
lemma apply_batches_partition (env : Nat → Nat → Manage.HttpOutcome)
    (bs : Nat) (names : List String) (count : Nat) :
    ((Manage.apply_batches env bs names count).successful ++
      (Manage.apply_batches env bs names count).failed.map
        (fun e => e.repo)).Perm (names.take (count * bs)) := by
  induction count with
  | zero => simp [Manage.apply_batches]
  | succ n ih =>
      have hfold : Manage.apply_batches env bs names (n + 1) =
          Manage.apply_batch_step env bs names
            (Manage.apply_batches env bs names n) n := by
        simp [Manage.apply_batches, List.range_succ]
      rw [hfold]
      have hstep := apply_batch_step_partition env bs names
        (Manage.apply_batches env bs names n) n
      have htake : names.take ((n + 1) * bs) =
          names.take (n * bs) ++ ((names.drop (n * bs)).take bs) := by
        rw [Nat.succ_mul, List.take_add]
      rw [htake]
      exact hstep.trans (ih.append_right ((names.drop (n * bs)).take bs))

/-- Every failure record produced by the first `count` batch-loop steps is
built by `mkFailedEntry` from a failed link-call result. -/
lemma apply_batches_failed_source (env : Nat → Nat → Manage.HttpOutcome)
    (bs : Nat) (names : List String) (count : Nat) :
    ∀ e ∈ (Manage.apply_batches env bs names count).failed, ∃ b,
      (Manage.apply_coding_standard_to_repositories (env b) 3).1.success
          = false ∧
      e = Manage.mkFailedEntry
            (Manage.apply_coding_standard_to_repositories (env b) 3).1
            e.repo := by
  induction count with
  | zero => simp [Manage.apply_batches]
  | succ n ih =>
      have hfold : Manage.apply_batches env bs names (n + 1) =
          Manage.apply_batch_step env bs names
            (Manage.apply_batches env bs names n) n := by
        simp [Manage.apply_batches, List.range_succ]
      rw [hfold]
      intro e he
      simp only [Manage.apply_batch_step] at he
      by_cases hs :
          (Manage.apply_coding_standard_to_repositories (env n) 3).1.success
      · simp only [hs, if_true] at he
        exact ih e he
      · simp only [hs, if_false, Bool.false_eq_true, List.mem_append] at he
        rcases he with he | he
        · exact ih e he
        · rcases List.mem_map.mp he with ⟨x, _, rfl⟩
          exact ⟨n, by simp [hs], by rw [mkFailedEntry_repo]⟩

/-- `ceil(L / bs) * bs` covers `L` when `bs ≥ 1`. -/
lemma le_rangeStepCount_mul (L bs : Nat) (h : 0 < bs) :
    L ≤ Manage.rangeStepCount L bs * bs := by
  have h1 := Nat.div_add_mod (L + bs - 1) bs
  have h2 : (L + bs - 1) % bs < bs := Nat.mod_lt _ h
  have h3 : bs * ((L + bs - 1) / bs) = (L + bs - 1) - (L + bs - 1) % bs :=
    Nat.eq_sub_of_add_eq h1
  show L ≤ (L + bs - 1) / bs * bs
  rw [Nat.mul_comm, h3]
  omega

/-- C5: `apply_coding_standard_to_all_repositories` is a total function of
the page and outcome oracles (it never raises), and for every positive batch
size and every outcome of every batch's link call, the returned successful
names and failed records' names together are a permutation of all drained
repository names — each fetched name lands in exactly one of the two lists,
whole batches at a time — and every failure record carries the error string,
status code and captured error content of its batch's failed link result. -/
theorem C5_results_partition_all_names (pages : List Manage.RepoPage)
    (env : Nat → Nat → Manage.HttpOutcome) (batch_size : Nat)
    (hbs : 0 < batch_size) :
    (((Manage.apply_coding_standard_to_all_repositories pages env
          batch_size).successful ++
      (Manage.apply_coding_standard_to_all_repositories pages env
          batch_size).failed.map (fun e => e.repo)).Perm
      (Manage.drain_repository_pages pages).1) ∧
    (∀ e ∈ (Manage.apply_coding_standard_to_all_repositories pages env
          batch_size).failed, ∃ b,
      (Manage.apply_coding_standard_to_repositories (env b) 3).1.success
          = false ∧
      e = Manage.mkFailedEntry
            (Manage.apply_coding_standard_to_repositories (env b) 3).1
            e.repo) := by
  constructor
  · have hp := apply_batches_partition env batch_size
      (Manage.drain_repository_pages pages).1
      (Manage.rangeStepCount
        (Manage.drain_repository_pages pages).1.length batch_size)
    have htake :
        ((Manage.drain_repository_pages pages).1).take
          (Manage.rangeStepCount
            (Manage.drain_repository_pages pages).1.length batch_size *
           batch_size) = (Manage.drain_repository_pages pages).1 :=
      List.take_of_length_le
        (le_rangeStepCount_mul _ batch_size hbs)
    rw [htake] at hp
    exact hp
  · exact apply_batches_failed_source env batch_size _ _

/-- Witness for C5 at a concrete page list, outcome oracle and batch size
(first batch fails with 400, second succeeds). -/
theorem C5_results_partition_all_names_witness :
    ((((Manage.apply_coding_standard_to_all_repositories
          [(⟨["r1", "r2", "r3"], none⟩ : Manage.RepoPage)]
          (fun b _ => if b = 0 then .httpError 400 "dup" else .ok)
          2).successful ++
       (Manage.apply_coding_standard_to_all_repositories
          [(⟨["r1", "r2", "r3"], none⟩ : Manage.RepoPage)]
          (fun b _ => if b = 0 then .httpError 400 "dup" else .ok)
          2).failed.map (fun e => e.repo)).Perm
       (Manage.drain_repository_pages
          [(⟨["r1", "r2", "r3"], none⟩ : Manage.RepoPage)]).1) ∧
     (∀ e ∈ (Manage.apply_coding_standard_to_all_repositories
          [(⟨["r1", "r2", "r3"], none⟩ : Manage.RepoPage)]
          (fun b _ => if b = 0 then .httpError 400 "dup" else .ok)
          2).failed, ∃ b,
        (Manage.apply_coding_standard_to_repositories
            ((fun b _ => if b = 0 then .httpError 400 "dup" else .ok) b)
            3).1.success = false ∧
        e = Manage.mkFailedEntry
              (Manage.apply_coding_standard_to_repositories
                ((fun b _ => if b = 0 then .httpError 400 "dup" else .ok) b)
                3).1 e.repo)) :=
  C5_results_partition_all_names
    [(⟨["r1", "r2", "r3"], none⟩ : Manage.RepoPage)]
    (fun b _ => if b = 0 then .httpError 400 "dup" else .ok)
    2 (by decide)

/-! ### Helper lemmas: pattern-page follow loops -/

/-- The reconciler's next-link loop returns the concatenation of all pages
when every page but the cursorless last carries a truthy next-link. -/
lemma sm_get_tool_patterns_flatten {α : Type} (front : List (Page α))
    (last : Page α)
    (hf : ∀ p ∈ front, truthy p.next = true)
    (hl : truthy last.next = false) :
    StateManager.get_tool_patterns (front ++ [last]) =
      ((front ++ [last]).map (fun p => p.data)).flatten := by
  induction front with
  | nil => simp [StateManager.get_tool_patterns, hl]
  | cons p front ih =>
      have hp : truthy p.next = true := hf p (by simp)
      have hrest : ∀ q ∈ front, truthy q.next = true :=
        fun q hq => hf q (by simp [hq])
      simp only [List.cons_append, StateManager.get_tool_patterns, hp,
        if_true, List.append_eq]
      rw [ih hrest]
      simp

/-- The extractor's loop is the same function as the reconciler's. -/
lemma ext_get_tool_patterns_eq_sm {α : Type} (pages : List (Page α)) :
    Extractor.get_tool_patterns pages = StateManager.get_tool_patterns pages := by
  induction pages with
  | nil => rfl
  | cons p rest ih =>
      simp only [Extractor.get_tool_patterns, StateManager.get_tool_patterns, ih]

/-- C7 counterexample: on a two-page pattern listing the builder's
`list_tool_patterns` (a single GET, `manage_coding_standard.py` lines 38-42)
returns only the first page, not the concatenation of all pages, so the
claim "every listPatterns operation follows the cursor/next-link until
exhausted ... in every component (builder, reconciler, extractor)" fails on
the builder. -/
theorem C7_builder_returns_partial_page :
    Manage.list_tool_patterns c7Pages ≠
      ((c7Pages.map (fun p => p.data)).flatten) ∧
    Manage.list_tool_patterns c7Pages ≠
      StateManager.get_tool_patterns c7Pages := by
  constructor <;> decide

/-- C7 (amended): the reconciler's and the extractor's `get_tool_patterns`
follow the `pagination.next` link until exhausted, returning the
concatenation of all pattern pages (never a partial page), for every page
sequence whose pages all carry a truthy next-link except the last; the
builder's `list_tool_patterns`, by contrast, returns exactly the first
response's `data`. -/
theorem C7_loops_follow_pagination {α : Type} (front : List (Page α))
    (last : Page α)
    (hf : ∀ p ∈ front, truthy p.next = true)
    (hl : truthy last.next = false) :
    StateManager.get_tool_patterns (front ++ [last]) =
      ((front ++ [last]).map (fun p => p.data)).flatten ∧
    Extractor.get_tool_patterns (front ++ [last]) =
      ((front ++ [last]).map (fun p => p.data)).flatten ∧
    Manage.list_tool_patterns (front ++ [last]) =
      ((front ++ [last]).headD ⟨[], none⟩).data := by
  refine ⟨sm_get_tool_patterns_flatten front last hf hl, ?_, rfl⟩
  rw [ext_get_tool_patterns_eq_sm]
  exact sm_get_tool_patterns_flatten front last hf hl

/-- Witness for the amended C7 at the two-page sample. -/
theorem C7_loops_follow_pagination_witness :
    StateManager.get_tool_patterns (c7Front ++ [c7Last]) =
      ((c7Front ++ [c7Last]).map (fun p => p.data)).flatten ∧
    Extractor.get_tool_patterns (c7Front ++ [c7Last]) =
      ((c7Front ++ [c7Last]).map (fun p => p.data)).flatten ∧
    Manage.list_tool_patterns (c7Front ++ [c7Last]) =
      ((c7Front ++ [c7Last]).headD ⟨[], none⟩).data :=
  C7_loops_follow_pagination c7Front c7Last (by decide) (by decide)

/-! ### Helper lemmas: builder error containment -/

/-- With no transport failure among the per-tool outcomes, the enable-pass
loop attempts every tool's update and no exception escapes. -/
lemma enable_pass_calls_no_transport (out : Nat → Manage.CallOutcome) :
    ∀ (tools : List Tool) (i : Nat),
      (∀ j, j < tools.length → out (i + j) ≠ .transportError) →
      Manage.enable_pass_calls out i tools =
        (tools.map (fun t => t.uuid), false) := by
  intro tools
  induction tools with
  | nil => intro i _; rfl
  | cons t ts ih =>
      intro i h
      have h0 : out i ≠ .transportError := by
        have := h 0 (by simp)
        simpa using this
      have hrest : ∀ j, j < ts.length → out (i + 1 + j) ≠ .transportError := by
        intro j hj
        have := h (j + 1) (by simp; omega)
        have harith : i + (j + 1) = i + 1 + j := by omega
        rw [harith] at this
        exact this
      rcases ho : out i with _ | s | _
      · simp only [Manage.enable_pass_calls, ho, ih (i + 1) hrest, List.map_cons]
      · simp only [Manage.enable_pass_calls, ho, ih (i + 1) hrest, List.map_cons]
      · exact absurd ho h0

/-- C9 counterexample: with two tools and a transport failure
(`ConnectionError`, not an `HTTPError`) on the first tool's update, the
builder attempts only the first tool, never reaches the second, skips
promotion, and lets the exception escape — so transport failures are NOT
contained like remote (non-2xx) failures, contradicting "this containment
holds for remote (non-2xx) and transport failures alike". -/
theorem C9_transport_failure_aborts_loop :
    Manage.process_coding_standard_trace (fun _ => .transportError) .ok
        [⟨"t1", true, []⟩, ⟨"t2", true, []⟩] =
      ⟨["t1"], false, true⟩ ∧
    (Manage.process_coding_standard_trace (fun _ => .transportError) .ok
        [⟨"t1", true, []⟩, ⟨"t2", true, []⟩]).attempted ≠
      ["t1", "t2"] := by
  constructor <;> decide

/-- C9 (amended): when every per-tool outcome is a success or an HTTP
(non-2xx) error — the only exception type the builder's `except` clauses
catch — every tool's update is attempted regardless of earlier per-tool
failures, promotion is attempted, and if the promotion outcome is likewise
not a transport failure the run completes without an escaping exception
(an HTTP promotion failure is caught and does not undo the per-tool
updates). -/
theorem C9_http_failures_contained (updOut : Nat → Manage.CallOutcome)
    (promoOut : Manage.CallOutcome) (tools : List Tool)
    (h : ∀ j, j < tools.length → updOut j ≠ .transportError)
    (hp : promoOut ≠ .transportError) :
    Manage.process_coding_standard_trace updOut promoOut tools =
      ⟨tools.map (fun t => t.uuid), true, false⟩ := by
  have hloop := enable_pass_calls_no_transport updOut tools 0 (by simpa using h)
  unfold Manage.process_coding_standard_trace
  rw [hloop]
  rcases promoOut with _ | s | _
  · rfl
  · rfl
  · exact absurd rfl hp

/-- Witness for the amended C9: first tool's update fails with HTTP 500,
promotion fails with HTTP 409; all tools still attempted, nothing escapes. -/
theorem C9_http_failures_contained_witness :
    Manage.process_coding_standard_trace
        (fun i => if i = 0 then .httpError 500 else .ok) (.httpError 409)
        [⟨"t1", true, []⟩, ⟨"t2", true, []⟩] =
      ⟨["t1", "t2"], true, false⟩ :=
  C9_http_failures_contained
    (fun i => if i = 0 then .httpError 500 else .ok) (.httpError 409)
    [⟨"t1", true, []⟩, ⟨"t2", true, []⟩] (by decide) (by decide)

/-! ### Helper lemmas: remote state after the build passes -/

/-- Looking up the just-updated uuid finds exactly the pushed state. -/
lemma find?_updateTool_self (u : String) (e : Bool) (ps : List Pattern)
    (s : List StateManager.LiveTool) :
    (Remote.updateTool u e ps s).find? (fun t => t.uuid == u) =
      some ⟨u, e, ps⟩ := by
  induction s with
  | nil =>
      simp [Remote.updateTool, List.find?_cons_of_pos]
  | cons t ts ih =>
      by_cases h : t.uuid = u
      · simp only [Remote.updateTool, if_pos h]
        exact List.find?_cons_of_pos _ (by simp)
      · simp only [Remote.updateTool, if_neg h]
        rw [List.find?_cons_of_neg _ (by simp [h])]
        exact ih

/-- Updating one uuid leaves lookups of any other uuid unchanged. -/
lemma find?_updateTool_other (u u' : String) (e : Bool) (ps : List Pattern)
    (s : List StateManager.LiveTool) (h : u' ≠ u) :
    (Remote.updateTool u e ps s).find? (fun t => t.uuid == u') =
      s.find? (fun t => t.uuid == u') := by
  induction s with
  | nil =>
      simp only [Remote.updateTool]
      rw [List.find?_cons_of_neg _ (by simp [Ne.symm h]), List.find?_nil]
  | cons t ts ih =>
      by_cases ht : t.uuid = u
      · simp only [Remote.updateTool, if_pos ht]
        rw [List.find?_cons_of_neg _ (by simp [Ne.symm h]),
          List.find?_cons_of_neg _ (by simp [ht ▸ Ne.symm h])]
      · simp only [Remote.updateTool, if_neg ht]
        by_cases hm : t.uuid = u'
        · rw [List.find?_cons_of_pos _ (by simp [hm]),
            List.find?_cons_of_pos _ (by simp [hm])]
        · rw [List.find?_cons_of_neg _ (by simp [hm]),
            List.find?_cons_of_neg _ (by simp [hm])]
          exact ih

/-- The enable-pass fold over tools none of which carries uuid `u` leaves
lookups of `u` unchanged. -/
lemma build_enable_fold_find_other (u : String) (ts : List Tool)
    (h : ∀ t ∈ ts, t.uuid ≠ u) :
    ∀ s : List StateManager.LiveTool,
      ((ts.foldl (fun st t => Remote.updateTool t.uuid t.isEnabled
          (Manage.enabled_config_patterns t) st) s).find?
        (fun x => x.uuid == u)) = s.find? (fun x => x.uuid == u) := by
  induction ts with
  | nil => intro s; rfl
  | cons a as ih =>
      intro s
      simp only [List.foldl_cons]
      rw [ih (fun t ht => h t (by simp [ht]))]
      exact find?_updateTool_other a.uuid u a.isEnabled _ s
        (Ne.symm (h a (by simp)))

/-- After the enable pass over a uuid-nodup tool list, looking up a listed
tool's uuid finds exactly the state the enable pass pushed for it. -/
lemma build_enable_fold_find_mem (ts : List Tool)
    (hnd : (ts.map (fun t => t.uuid)).Nodup) (t : Tool) (hmem : t ∈ ts) :
    ∀ s : List StateManager.LiveTool,
      ((ts.foldl (fun st x => Remote.updateTool x.uuid x.isEnabled
          (Manage.enabled_config_patterns x) st) s).find?
        (fun x => x.uuid == t.uuid)) =
      some ⟨t.uuid, t.isEnabled, Manage.enabled_config_patterns t⟩ := by
  induction ts with
  | nil => cases hmem
  | cons a as ih =>
      intro s
      simp only [List.map_cons, List.nodup_cons] at hnd
      simp only [List.foldl_cons]
      rcases List.mem_cons.mp hmem with rfl | hmem'
      · have hnotin : ∀ x ∈ as, x.uuid ≠ t.uuid := by
          intro x hx he
          exact hnd.1 (he ▸ List.mem_map_of_mem (fun y => y.uuid) hx)
        rw [build_enable_fold_find_other t.uuid as hnotin]
        exact find?_updateTool_self t.uuid t.isEnabled _ s
      · exact ih hnd.2 hmem' _

/-- When every baseline pattern of a tool is enabled, the enable pass pushes
the tool's full pattern list unchanged. -/
lemma enabled_config_patterns_of_all (t : Tool)
    (h : ∀ p ∈ t.patterns, p.enabled = true) :
    Manage.enabled_config_patterns t = t.patterns := by
  unfold Manage.enabled_config_patterns
  rw [List.filter_eq_self.mpr h]
  have he : (fun (p : Pattern) => (⟨p.id, p.enabled, p.parameters⟩ : Pattern)) =
      fun p => p := funext (fun _ => rfl)
  rw [he, List.map_id']

/-! ### Helper lemmas: Python dicts on nodup keys -/

/-- Keys after a dict insert: the inserted key plus the existing ones. -/
lemma mem_keys_dictInsert {α : Type} (x k : String) (v : α)
    (d : List (String × α)) :
    x ∈ (dictInsert k v d).map Prod.fst ↔ x = k ∨ x ∈ d.map Prod.fst := by
  induction d with
  | nil => simp [dictInsert]
  | cons kv rest ih =>
      rcases kv with ⟨k', v'⟩
      by_cases h : k' = k
      · subst h
        simp [dictInsert]
      · simp only [dictInsert, if_neg h, List.map_cons, List.mem_cons, ih]
        tauto

/-- A dict insert preserves key nodup-ness. -/
lemma dictInsert_keys_nodup {α : Type} (k : String) (v : α)
    (d : List (String × α)) (h : (d.map Prod.fst).Nodup) :
    ((dictInsert k v d).map Prod.fst).Nodup := by
  induction d with
  | nil => simp [dictInsert]
  | cons kv rest ih =>
      rcases kv with ⟨k', v'⟩
      simp only [List.map_cons, List.nodup_cons] at h
      by_cases hk : k' = k
      · subst hk
        simp [dictInsert, h.1, h.2]
      · simp only [dictInsert, if_neg hk, List.map_cons, List.nodup_cons]
        refine ⟨?_, ih h.2⟩
        rw [mem_keys_dictInsert]
        rintro (rfl | hm)
        · exact hk rfl
        · exact h.1 hm

/-- A Python dict has no repeated keys. -/
lemma pyDict_keys_nodup {α : Type} (kvs : List (String × α)) :
    ((pyDict kvs).map Prod.fst).Nodup := by
  suffices h : ∀ d : List (String × α), (d.map Prod.fst).Nodup →
      ((kvs.foldl (fun d kv => dictInsert kv.1 kv.2 d) d).map Prod.fst).Nodup by
    exact h [] (by simp)
  induction kvs with
  | nil => intro d hd; exact hd
  | cons kv rest ih =>
      intro d hd
      exact ih _ (dictInsert_keys_nodup kv.1 kv.2 d hd)

/-- On a key-nodup dict, looking up an entry's own key returns its value. -/
lemma dictFind_self {α : Type} (d : List (String × α))
    (hnd : (d.map Prod.fst).Nodup) :
    ∀ kv ∈ d, dictFind kv.1 d = some kv.2 := by
  induction d with
  | nil => simp
  | cons e rest ih =>
      rcases e with ⟨k', v'⟩
      simp only [List.map_cons, List.nodup_cons] at hnd
      intro kv hm
      rcases List.mem_cons.mp hm with rfl | hm'
      · simp only [dictFind]
        rw [List.find?_cons_of_pos _ (by simp)]
        rfl
      · have hk : k' ≠ kv.1 := by
          intro h
          exact hnd.1 (h ▸ List.mem_map_of_mem Prod.fst hm')
        simp only [dictFind] at ih ⊢
        rw [List.find?_cons_of_neg _ (by simp [hk])]
        exact ih hnd.2 kv hm'

/-- A fold whose body fixes the accumulator on every list element is the
identity on the accumulator. -/
lemma foldl_neutral {β γ : Type} (f : β → γ → β) (l : List γ)
    (h : ∀ acc x, x ∈ l → f acc x = acc) : ∀ acc, l.foldl f acc = acc := by
  induction l with
  | nil => intro acc; rfl
  | cons a as ih =>
      intro acc
      rw [List.foldl_cons, h acc a (by simp)]
      exact ih (fun acc x hx => h acc x (by simp [hx])) acc

/-- Comparing a pattern list against itself records no deviation. -/
lemma pattern_deviations_self (uuid : String) (ps : List Pattern) :
    StateManager.pattern_deviations uuid ps ps = [] := by
  simp only [StateManager.pattern_deviations]
  refine foldl_neutral _ _ ?_ []
  intro acc kv hm
  rw [dictFind_self _ (pyDict_keys_nodup _) kv hm]
  simp

/-- Scanning a baseline tool against an identical live tool records no
deviation. -/
lemma tool_scan_deviations_self (t : Tool) :
    StateManager.tool_scan_deviations t ⟨t.uuid, t.isEnabled, t.patterns⟩
      = [] := by
  simp [StateManager.tool_scan_deviations, pattern_deviations_self]

/-- C2 counterexample: the round trip is NOT deviation-free for every
baseline configuration.  A baseline whose tool lists a pattern with
`enabled: false` is filtered by the builder's enable pass (lines 105-111
keep only enabled entries), and the reconciler then reports that pattern as
missing — so build-then-reconcile yields `[pattern-missing(p, t)]`, not
`[]`, already under the corrected tool-scoped reconciler. -/
theorem C2_roundtrip_fails_for_disabled_pattern :
    (StateManager.reconcile_scoped
        (Manage.process_coding_standard_live [] c2CexConfig) c2CexConfig).1 =
      ["Pattern p is missing in tool t"] := by
  rfl

/-- C2 (amended): for every service-default initial tool state and every
baseline configuration whose tool uuids are unique (the §3 invariant) and
whose listed patterns are all enabled (as holds for extractor-produced
baselines), building a standard from the baseline and immediately
reconciling the resulting live state against it with the corrected
tool-scoped reconciler of §4.3 yields no deviations and no corrective
calls. -/
theorem C2_build_then_reconcile_roundtrip (init : List StateManager.LiveTool)
    (C : Config) (hnd : (C.tools.map (fun t => t.uuid)).Nodup)
    (hen : ∀ t ∈ C.tools, ∀ p ∈ t.patterns, p.enabled = true) :
    StateManager.reconcile_scoped
        (Manage.process_coding_standard_live init C) C = ([], []) := by
  have hfind : ∀ t ∈ C.tools,
      ((Manage.process_coding_standard_live init C).find?
        (fun x => x.uuid == t.uuid)) =
      some ⟨t.uuid, t.isEnabled, t.patterns⟩ := by
    intro t ht
    have hb := build_enable_fold_find_mem C.tools hnd t ht
      (Manage.build_disable_pass init)
    rw [enabled_config_patterns_of_all t (hen t ht)] at hb
    exact hb
  unfold StateManager.reconcile_scoped
  refine foldl_neutral _ _ ?_ ([], [])
  intro acc t ht
  rw [hfind t ht]
  simp [tool_scan_deviations_self]

/-- Witness for the amended C2: a two-tool baseline (one enabled, one
disabled, all listed patterns enabled) built over a nonempty default state
reconciles with no deviations. -/
theorem C2_build_then_reconcile_roundtrip_witness :
    StateManager.reconcile_scoped
        (Manage.process_coding_standard_live c2Init c2Config) c2Config =
      ([], []) :=
  C2_build_then_reconcile_roundtrip c2Init c2Config (by decide)
    (by decide)
